import Mathlib

/-!
Shallow embedding of the faikin_power pyscript app (src/__init__.py):
per-unit power estimation from cumulative lifetime energy readings with a
hold-window expiry state machine, a one-time MQTT discovery announcement
per unit, and an optional compressor-based fallback estimate.

Python floats (timestamps, watts) are modelled as rationals; the per-unit
dict records of the _units mapping become a structure whose fields follow
the dict.get defaults used by the code (hold_until defaults to 0.0, the
discovered flag to falsy).  Outbound mqtt.publish calls become entries in
a returned message list; the wattage carried by a power message is the
value handed to mqtt.publish before decimal string formatting.
-/

namespace FaikinPower

/-- The configured margin_factor value: absent (None), present but failing
float conversion, or a parsed numeric value. -/
inductive MarginFactor where
  | notSet
  | unparseable
  | value (f : ℚ)
  deriving DecidableEq

/-- App configuration surface of the script (loaded once at start). -/
structure Config where
  margin_seconds : ℚ
  margin_factor : MarginFactor
  min_power_w : ℚ
  enable_comp_fallback : Bool
  deriving DecidableEq

/-- Per-unit rolling state: the per-unit dict stored in the _units mapping. -/
structure URec where
  last_wh : Option ℤ
  last_ts : Option ℚ
  hold_until : ℚ
  last_w : Option ℚ
  discovered : Bool
  deriving DecidableEq

/-- A freshly created empty record, as produced by _units.setdefault(unit, {})
read back through the dict.get defaults used by the code. -/
def emptyRec : URec :=
  { last_wh := none, last_ts := none, hold_until := 0, last_w := none, discovered := false }

/-- The _units mapping: unit identifier to its record. -/
abbrev Units := List (String × URec)

def getRec : Units → String → Option URec
  | [], _ => none
  | p :: t, u => if p.1 = u then some p.2 else getRec t u

/-- Read a unit's record through the dict.get defaults (missing record reads
as an empty one, exactly how every field access in the code defaults). -/
def getRecD (us : Units) (u : String) : URec := (getRec us u).getD emptyRec

def setRec : Units → String → URec → Units
  | [], u, r => [(u, r)]
  | p :: t, u, r => if p.1 = u then (u, r) :: t else p :: setRec t u r

/-- Outbound MQTT messages the app can publish: a wattage on the per-unit
power topic, or the one-time discovery announcement. -/
inductive PubMsg where
  | power (unit : String) (watts : ℚ)
  | announce (unit : String) (dev_id : String)
  deriving DecidableEq

/-- The clamp applied inside _publish_power: negatives become 0, then the
minimum-power floor is applied when configured (truthy) and the value is
strictly positive. -/
def clampPower (cfg : Config) (w : ℚ) : ℚ :=
  let w1 := if w < 0 then (0 : ℚ) else w
  if cfg.min_power_w ≠ 0 ∧ 0 < w1 then max w1 cfg.min_power_w else w1

/-- _publish_power: clamp, publish to the per-unit power topic, and remember
the published value in the record (last_w). -/
def publish_power (cfg : Config) (us : Units) (u : String) (w : ℚ) : Units × List PubMsg :=
  let v := clampPower cfg w
  (setRec us u { getRecD us u with last_w := some v }, [PubMsg.power u v])

/-- _compute_hold_seconds: the factor strategy when MARGIN_FACTOR is present
and converts to float, otherwise the additive seconds strategy. -/
def compute_hold_seconds (cfg : Config) (last_dt_seconds : ℚ) : ℚ :=
  match cfg.margin_factor with
  | MarginFactor.value fac => max 0 (last_dt_seconds * (1 + fac))
  | _ => max 0 (last_dt_seconds + cfg.margin_seconds)

/-- _update_from_energy: the core estimator state machine.  The initial
setRec mirrors the insertion performed by _units.setdefault(unit, {}). -/
def update_from_energy (cfg : Config) (us0 : Units) (u : String) (wh_now : ℤ) (ts_now : ℚ) :
    Units × List PubMsg :=
  let r := getRecD us0 u
  let us := setRec us0 u r
  match r.last_wh, r.last_ts with
  | some lwh, some lts =>
    if wh_now < lwh then
      publish_power cfg
        (setRec us u { r with last_wh := some wh_now, last_ts := some ts_now, hold_until := 0 })
        u 0
    else if wh_now = lwh then
      if r.hold_until ≠ 0 ∧ r.hold_until < ts_now then
        let pp := publish_power cfg us u 0
        (setRec pp.1 u { getRecD pp.1 u with hold_until := 0 }, pp.2)
      else (us, [])
    else
      let dwh : ℚ := ((wh_now - lwh : ℤ) : ℚ)
      let dt : ℚ := max (1 / 2) (ts_now - lts)
      let watts := dwh * 3600 / dt
      publish_power cfg
        (setRec us u { r with last_wh := some wh_now, last_ts := some ts_now,
                              hold_until := ts_now + compute_hold_seconds cfg dt })
        u watts
  | _, _ =>
      publish_power cfg
        (setRec us u { r with last_wh := some wh_now, last_ts := some ts_now, hold_until := 0 })
        u 0

/-- estimate_power_from_comp: the placeholder linear mapping of the optional
fallback (about 50 W per comp unit). -/
def estimate_power_from_comp (comp_hz : ℚ) : ℚ :=
  if comp_hz ≤ 0 then 0 else max 0 (comp_hz * 50)

/-- A decoded JSON payload field: key absent, present but failing numeric
conversion, or carrying a converted value. -/
inductive PField (α : Type) where
  | absent
  | malformed
  | val (a : α)
  deriving DecidableEq

def PField.isMalformed {α : Type} : PField α → Bool
  | PField.malformed => true
  | _ => false

/-- The payload fields the two handlers consult. -/
structure Payload where
  wh : PField ℤ
  dev : Option String
  comp : PField ℚ
  fanfreq : PField ℚ
  deriving DecidableEq

/-- str(payload_obj.get("id") or f"faikin-{unit}"): the id field when present
and truthy, else an identifier synthesized from the unit. -/
def dev_id_of (p : Payload) (u : String) : String :=
  match p.dev with
  | some s => if s = "" then "faikin-" ++ u else s
  | none => "faikin-" ++ u

/-- _discovery: the one-time per-unit discovery announcement.  The initial
setRec mirrors _units.setdefault(unit, {}) which inserts the record even
when the early discovered-return is taken. -/
def discovery (us : Units) (u : String) (dv : String) : Units × List PubMsg :=
  let r := getRecD us u
  let us1 := setRec us u r
  if r.discovered then (us1, [])
  else (setRec us1 u { r with discovered := true }, [PubMsg.announce u dv])

/-- faikin_energy_tick: fires only when the payload carries a Wh key; runs
discovery first, then parses the energy integer (silently returning on
conversion failure), then updates the estimator. -/
def faikin_energy_tick (cfg : Config) (us : Units) (u : String) (p : Payload) (now : ℚ) :
    Units × List PubMsg :=
  match p.wh with
  | PField.absent => (us, [])
  | PField.malformed => discovery us u (dev_id_of p u)
  | PField.val wh =>
      let d := discovery us u (dev_id_of p u)
      let e := update_from_energy cfg d.1 u wh now
      (e.1, d.2 ++ e.2)

/-- faikin_comp_estimate: fires only when the payload carries comp or fanfreq;
guarded by the fallback enable flag, then discovery, then the hold-window
suppression, then the fallback estimate (conversion failure of either
numeric field degrades comp to 0). -/
def faikin_comp_estimate (cfg : Config) (us : Units) (u : String) (p : Payload) (now : ℚ) :
    Units × List PubMsg :=
  if p.comp = PField.absent ∧ p.fanfreq = PField.absent then (us, [])
  else if cfg.enable_comp_fallback = false then (us, [])
  else
    let d := discovery us u (dev_id_of p u)
    let hold := (getRecD d.1 u).hold_until
    if hold ≠ 0 ∧ now ≤ hold then d
    else
      let comp : ℚ :=
        if p.comp.isMalformed || p.fanfreq.isMalformed then 0
        else
          match p.comp with
          | PField.val c => c
          | _ => 0
      let pp := publish_power cfg d.1 u (estimate_power_from_comp comp)
      (pp.1, d.2 ++ pp.2)

/-- An inbound message, pre-classified by which handler trigger it matches
(a payload carrying both kinds of fields fires both handlers and is a
sequence of one message of each kind). -/
inductive InMsg where
  | energy (u : String) (p : Payload) (now : ℚ)
  | aux (u : String) (p : Payload) (now : ℚ)
  deriving DecidableEq

def step (cfg : Config) (us : Units) : InMsg → Units × List PubMsg
  | InMsg.energy u p now => faikin_energy_tick cfg us u p now
  | InMsg.aux u p now => faikin_comp_estimate cfg us u p now

/-- Process a sequence of inbound messages, accumulating everything published. -/
def run (cfg : Config) (us : Units) : List InMsg → Units × List PubMsg
  | [] => (us, [])
  | m :: ms =>
      let s := step cfg us m
      let rest := run cfg s.1 ms
      (rest.1, s.2 ++ rest.2)

/-- Repeated energy updates carrying one unchanged energy value, at the given
sequence of times. -/
def run_same_energy (cfg : Config) (us : Units) (u : String) (wh : ℤ) :
    List ℚ → Units × List PubMsg
  | [] => (us, [])
  | τ :: rest =>
      let s := update_from_energy cfg us u wh τ
      let q := run_same_energy cfg s.1 u wh rest
      (q.1, s.2 ++ q.2)

def PubMsg.isPower : PubMsg → Bool
  | PubMsg.power _ _ => true
  | _ => false

def isAnnounceFor (u : String) : PubMsg → Bool
  | PubMsg.announce v _ => v == u
  | _ => false

/-- How many discovery announcements for the given unit a message list holds. -/
def countAnnounce (u : String) (ms : List PubMsg) : ℕ := (ms.filter (isAnnounceFor u)).length

/-- 1 when the unit's one-time announcement has been recorded as emitted. -/
def discoveredNat (us : Units) (u : String) : ℕ :=
  if (getRecD us u).discovered then 1 else 0

/-- The default configuration values of the script. -/
def cfgDefault : Config :=
  { margin_seconds := 300, margin_factor := MarginFactor.value (1 / 2),
    min_power_w := 0, enable_comp_fallback := false }

/-! ### Store lemmas -/

theorem getRec_setRec_self (us : Units) (u : String) (r : URec) :
    getRec (setRec us u r) u = some r := by
  induction us with
  | nil => simp [setRec, getRec]
  | cons p t ih =>
      by_cases h : p.1 = u
      · simp [setRec, h, getRec]
      · simp [setRec, h, getRec, ih]

theorem getRec_setRec_ne (us : Units) (u v : String) (r : URec) (h : v ≠ u) :
    getRec (setRec us u r) v = getRec us v := by
  induction us with
  | nil => simp [setRec, getRec, Ne.symm h]
  | cons p t ih =>
      by_cases hp : p.1 = u
      · subst hp
        have hv : ¬ p.1 = v := fun hh => h (Eq.symm hh)
        simp [setRec, getRec, hv]
      · simp [setRec, hp, getRec, ih]

theorem setRec_setRec (us : Units) (u : String) (r r' : URec) :
    setRec (setRec us u r) u r' = setRec us u r' := by
  induction us with
  | nil => simp [setRec]
  | cons p t ih =>
      by_cases h : p.1 = u
      · simp [setRec, h]
      · simp [setRec, h, ih]

theorem getRecD_setRec_self (us : Units) (u : String) (r : URec) :
    getRecD (setRec us u r) u = r := by
  simp [getRecD, getRec_setRec_self]

theorem getRecD_setRec_ne (us : Units) (u v : String) (r : URec) (h : v ≠ u) :
    getRecD (setRec us u r) v = getRecD us v := by
  simp [getRecD, getRec_setRec_ne us u v r h]

/-! ### Clamp lemmas -/

theorem clampPower_nonneg (cfg : Config) (w : ℚ) : 0 ≤ clampPower cfg w := by
  unfold clampPower
  by_cases hw : w < 0
  · simp [hw]
  · simp only [if_neg hw]
    split_ifs with h
    · exact le_trans (le_of_not_lt hw) (le_max_left _ _)
    · exact le_of_not_lt hw

theorem clampPower_floor (cfg : Config) (w : ℚ) (hf : 0 < cfg.min_power_w) (hw : 0 < w) :
    cfg.min_power_w ≤ clampPower cfg w := by
  unfold clampPower
  have hw' : ¬ w < 0 := not_lt.mpr hw.le
  simp only [if_neg hw']
  rw [if_pos ⟨ne_of_gt hf, hw⟩]
  exact le_max_right _ _

theorem clampPower_pos_eq (cfg : Config) (w : ℚ) (h0 : cfg.min_power_w = 0) (hw : 0 < w) :
    clampPower cfg w = w := by
  unfold clampPower
  simp [not_lt.mpr hw.le, h0]

theorem clampPower_zero (cfg : Config) : clampPower cfg 0 = 0 := by
  unfold clampPower
  simp

/-! ### Branch lemmas for update_from_energy -/

theorem update_first_obs (cfg : Config) (us : Units) (u : String) (wh : ℤ) (ts : ℚ)
    (h : (getRecD us u).last_wh = none ∨ (getRecD us u).last_ts = none) :
    update_from_energy cfg us u wh ts =
      (setRec us u
        { getRecD us u with
            last_wh := some wh, last_ts := some ts, hold_until := 0, last_w := some 0 },
       [PubMsg.power u 0]) := by
  rcases hwh : (getRecD us u).last_wh with _ | l
  · simp [update_from_energy, hwh, publish_power, clampPower_zero, setRec_setRec,
      getRecD_setRec_self]
  · rcases h with h | h
    · rw [hwh] at h; cases h
    · simp [update_from_energy, hwh, h, publish_power, clampPower_zero, setRec_setRec,
        getRecD_setRec_self]

theorem update_regression (cfg : Config) (us : Units) (u : String) (wh : ℤ) (ts : ℚ)
    (l : ℤ) (t : ℚ)
    (hwh : (getRecD us u).last_wh = some l) (hts : (getRecD us u).last_ts = some t)
    (hlt : wh < l) :
    update_from_energy cfg us u wh ts =
      (setRec us u
        { getRecD us u with
            last_wh := some wh, last_ts := some ts, hold_until := 0, last_w := some 0 },
       [PubMsg.power u 0]) := by
  simp [update_from_energy, hwh, hts, hlt, publish_power, clampPower_zero, setRec_setRec,
    getRecD_setRec_self]

theorem update_noop (cfg : Config) (us : Units) (u : String) (wh : ℤ) (ts : ℚ) (t : ℚ)
    (hwh : (getRecD us u).last_wh = some wh) (hts : (getRecD us u).last_ts = some t)
    (hc : ¬ ((getRecD us u).hold_until ≠ 0 ∧ (getRecD us u).hold_until < ts)) :
    update_from_energy cfg us u wh ts = (setRec us u (getRecD us u), []) := by
  simp [update_from_energy, hwh, hts, hc]

theorem update_expiry (cfg : Config) (us : Units) (u : String) (wh : ℤ) (ts : ℚ) (t : ℚ)
    (hwh : (getRecD us u).last_wh = some wh) (hts : (getRecD us u).last_ts = some t)
    (hh : (getRecD us u).hold_until ≠ 0) (hexp : (getRecD us u).hold_until < ts) :
    update_from_energy cfg us u wh ts =
      (setRec us u { getRecD us u with hold_until := 0, last_w := some 0 },
       [PubMsg.power u 0]) := by
  simp [update_from_energy, hwh, hts, hh, hexp, publish_power, clampPower_zero, setRec_setRec,
    getRecD_setRec_self]

theorem update_increase (cfg : Config) (us : Units) (u : String) (wh : ℤ) (ts : ℚ)
    (l : ℤ) (t : ℚ)
    (hwh : (getRecD us u).last_wh = some l) (hts : (getRecD us u).last_ts = some t)
    (hlt : l < wh) :
    update_from_energy cfg us u wh ts =
      (setRec us u { getRecD us u with
            last_wh := some wh, last_ts := some ts,
            hold_until := ts + compute_hold_seconds cfg (max (1 / 2) (ts - t)),
            last_w := some (clampPower cfg (((wh - l : ℤ) : ℚ) * 3600 / max (1 / 2) (ts - t))) },
       [PubMsg.power u (clampPower cfg (((wh - l : ℤ) : ℚ) * 3600 / max (1 / 2) (ts - t)))]) := by
  have h1 : ¬ wh < l := not_lt.mpr hlt.le
  have h2 : ¬ wh = l := ne_of_gt hlt
  simp [update_from_energy, hwh, hts, h1, h2, publish_power, setRec_setRec, getRecD_setRec_self]

/-- Every run of the estimator rewrites only the handled unit's record, keeps
its discovered flag, and publishes either nothing or a single clamped value. -/
theorem update_cases (cfg : Config) (us : Units) (u : String) (wh : ℤ) (ts : ℚ) :
    ∃ R w, (update_from_energy cfg us u wh ts).1 = setRec us u R
      ∧ R.discovered = (getRecD us u).discovered
      ∧ ((update_from_energy cfg us u wh ts).2 = []
          ∨ (update_from_energy cfg us u wh ts).2 = [PubMsg.power u (clampPower cfg w)]) := by
  rcases hwh : (getRecD us u).last_wh with _ | l
  · rw [update_first_obs cfg us u wh ts (Or.inl hwh)]
    exact ⟨_, 0, rfl, rfl, Or.inr (by rw [clampPower_zero])⟩
  · rcases hts : (getRecD us u).last_ts with _ | t
    · rw [update_first_obs cfg us u wh ts (Or.inr hts)]
      exact ⟨_, 0, rfl, rfl, Or.inr (by rw [clampPower_zero])⟩
    · rcases lt_trichotomy wh l with hlt | heq | hgt
      · rw [update_regression cfg us u wh ts l t hwh hts hlt]
        exact ⟨_, 0, rfl, rfl, Or.inr (by rw [clampPower_zero])⟩
      · subst heq
        by_cases hc : (getRecD us u).hold_until ≠ 0 ∧ (getRecD us u).hold_until < ts
        · rw [update_expiry cfg us u wh ts t hwh hts hc.1 hc.2]
          exact ⟨_, 0, rfl, rfl, Or.inr (by rw [clampPower_zero])⟩
        · rw [update_noop cfg us u wh ts t hwh hts hc]
          exact ⟨_, 0, rfl, rfl, Or.inl rfl⟩
      · rw [update_increase cfg us u wh ts l t hwh hts hgt]
        exact ⟨_, _, rfl, rfl, Or.inr rfl⟩

theorem update_frame (cfg : Config) (us : Units) (u v : String) (wh : ℤ) (ts : ℚ)
    (h : v ≠ u) :
    getRec (update_from_energy cfg us u wh ts).1 v = getRec us v := by
  obtain ⟨R, w, hst, -, -⟩ := update_cases cfg us u wh ts
  rw [hst, getRec_setRec_ne us u v R h]

theorem update_discovered (cfg : Config) (us : Units) (u : String) (wh : ℤ) (ts : ℚ) :
    (getRecD (update_from_energy cfg us u wh ts).1 u).discovered
      = (getRecD us u).discovered := by
  obtain ⟨R, w, hst, hd, -⟩ := update_cases cfg us u wh ts
  rw [hst, getRecD_setRec_self, hd]

theorem update_discoveredNat (cfg : Config) (us : Units) (u x : String) (wh : ℤ) (ts : ℚ) :
    discoveredNat (update_from_energy cfg us u wh ts).1 x = discoveredNat us x := by
  by_cases h : x = u
  · subst h; simp [discoveredNat, update_discovered]
  · simp [discoveredNat, getRecD, update_frame cfg us u x wh ts h]

theorem update_ann (cfg : Config) (us : Units) (u x : String) (wh : ℤ) (ts : ℚ) :
    countAnnounce x (update_from_energy cfg us u wh ts).2 = 0 := by
  obtain ⟨R, w, -, -, hout⟩ := update_cases cfg us u wh ts
  rcases hout with h | h <;> simp [h, countAnnounce, isAnnounceFor]

/-! ### publish_power lemmas -/

theorem publish_power_def (cfg : Config) (us : Units) (u : String) (w : ℚ) :
    publish_power cfg us u w =
      (setRec us u { getRecD us u with last_w := some (clampPower cfg w) },
       [PubMsg.power u (clampPower cfg w)]) := rfl

theorem publish_frame (cfg : Config) (us : Units) (u v : String) (w : ℚ) (h : v ≠ u) :
    getRec (publish_power cfg us u w).1 v = getRec us v := by
  rw [publish_power_def, getRec_setRec_ne us u v _ h]

theorem publish_discoveredNat (cfg : Config) (us : Units) (u x : String) (w : ℚ) :
    discoveredNat (publish_power cfg us u w).1 x = discoveredNat us x := by
  by_cases h : x = u
  · subst h; simp [discoveredNat, publish_power_def, getRecD_setRec_self]
  · simp [discoveredNat, getRecD, publish_frame cfg us u x w h]

theorem publish_ann (cfg : Config) (us : Units) (u x : String) (w : ℚ) :
    countAnnounce x (publish_power cfg us u w).2 = 0 := by
  simp [publish_power_def, countAnnounce, isAnnounceFor]

/-! ### discovery lemmas -/

theorem discovery_getRecD (us : Units) (u : String) (dv : String) :
    getRecD (discovery us u dv).1 u = { getRecD us u with discovered := true } := by
  unfold discovery
  by_cases h : (getRecD us u).discovered
  · simp only [h, if_true]
    rw [getRecD_setRec_self]
    rcases hr : getRecD us u with ⟨a, b, c, d, e⟩
    rw [hr] at h
    simp only at h
    simp [h]
  · simp only [h, if_false, Bool.false_eq_true]
    rw [setRec_setRec, getRecD_setRec_self]

theorem discovery_frame (us : Units) (u v : String) (dv : String) (h : v ≠ u) :
    getRec (discovery us u dv).1 v = getRec us v := by
  unfold discovery
  by_cases hd : (getRecD us u).discovered
  · simp only [hd, if_true]
    rw [getRec_setRec_ne us u v _ h]
  · simp only [hd, if_false, Bool.false_eq_true]
    rw [getRec_setRec_ne _ u v _ h, getRec_setRec_ne us u v _ h]

theorem discovery_out (us : Units) (u : String) (dv : String) :
    (discovery us u dv).2 = [] ∨ (discovery us u dv).2 = [PubMsg.announce u dv] := by
  unfold discovery
  by_cases hd : (getRecD us u).discovered <;> simp [hd]

theorem discovery_dn (us : Units) (u : String) (dv : String) :
    countAnnounce u (discovery us u dv).2 + discoveredNat us u
      = discoveredNat (discovery us u dv).1 u := by
  by_cases hd : (getRecD us u).discovered
  · have hout : (discovery us u dv).2 = [] := by unfold discovery; simp [hd]
    simp [hout, countAnnounce, discoveredNat, discovery_getRecD, hd]
  · have hout : (discovery us u dv).2 = [PubMsg.announce u dv] := by
      unfold discovery; simp [hd]
    simp [hout, countAnnounce, isAnnounceFor, discoveredNat, discovery_getRecD, hd]

theorem discovery_dn_ne (us : Units) (u v : String) (dv : String) (h : v ≠ u) :
    countAnnounce v (discovery us u dv).2 = 0 := by
  rcases discovery_out us u dv with ho | ho <;>
    simp [ho, countAnnounce, isAnnounceFor, Ne.symm h]

/-! ### Power-message shape lemmas -/

theorem countAnnounce_append (x : String) (a b : List PubMsg) :
    countAnnounce x (a ++ b) = countAnnounce x a + countAnnounce x b := by
  simp [countAnnounce, List.filter_append]

theorem pow_mem_publish (cfg : Config) (us : Units) (u : String) (w : ℚ) (v : String) (w' : ℚ)
    (h : PubMsg.power v w' ∈ (publish_power cfg us u w).2) : w' = clampPower cfg w := by
  rw [publish_power_def] at h
  simp at h
  exact h.2

theorem pow_mem_discovery (us : Units) (u : String) (dv : String) (v : String) (w' : ℚ)
    (h : PubMsg.power v w' ∈ (discovery us u dv).2) : False := by
  rcases discovery_out us u dv with ho | ho <;> rw [ho] at h <;> simp at h

theorem pow_mem_update (cfg : Config) (us : Units) (u : String) (wh : ℤ) (ts : ℚ)
    (v : String) (w' : ℚ)
    (h : PubMsg.power v w' ∈ (update_from_energy cfg us u wh ts).2) : 0 ≤ w' := by
  obtain ⟨R, w, -, -, hout⟩ := update_cases cfg us u wh ts
  rcases hout with ho | ho <;> rw [ho] at h
  · simp at h
  · simp at h
    rw [h.2]
    exact clampPower_nonneg cfg w

theorem pow_mem_energy (cfg : Config) (us : Units) (u : String) (p : Payload) (now : ℚ)
    (v : String) (w' : ℚ)
    (h : PubMsg.power v w' ∈ (faikin_energy_tick cfg us u p now).2) : 0 ≤ w' := by
  unfold faikin_energy_tick at h
  rcases hwf : p.wh with _ | _ | wh <;> simp only [hwf] at h
  · simp at h
  · exact (pow_mem_discovery us u _ v w' h).elim
  · rcases List.mem_append.mp h with h | h
    · exact (pow_mem_discovery us u _ v w' h).elim
    · exact pow_mem_update cfg _ u wh now v w' h

/-- The fallback handler either does nothing, only runs discovery (fallback
suppressed by the hold window), or runs discovery followed by one
publish_power call. -/
theorem comp_cases (cfg : Config) (us : Units) (u : String) (p : Payload) (now : ℚ) :
    ((faikin_comp_estimate cfg us u p now).1 = us
      ∧ (faikin_comp_estimate cfg us u p now).2 = [])
    ∨ ((faikin_comp_estimate cfg us u p now).1 = (discovery us u (dev_id_of p u)).1
      ∧ (faikin_comp_estimate cfg us u p now).2 = (discovery us u (dev_id_of p u)).2)
    ∨ ∃ w,
        (faikin_comp_estimate cfg us u p now).1
            = (publish_power cfg (discovery us u (dev_id_of p u)).1 u w).1
        ∧ (faikin_comp_estimate cfg us u p now).2
            = (discovery us u (dev_id_of p u)).2
              ++ (publish_power cfg (discovery us u (dev_id_of p u)).1 u w).2 := by
  simp only [faikin_comp_estimate]
  split_ifs with h1 h2 h3 h4
  · exact Or.inl ⟨rfl, rfl⟩
  · exact Or.inl ⟨rfl, rfl⟩
  · exact Or.inr (Or.inl ⟨rfl, rfl⟩)
  · exact Or.inr (Or.inr ⟨_, rfl, rfl⟩)
  · exact Or.inr (Or.inr ⟨_, rfl, rfl⟩)

theorem comp_trig_none (cfg : Config) (us : Units) (u : String) (p : Payload) (now : ℚ)
    (htrig : p.comp = PField.absent ∧ p.fanfreq = PField.absent) :
    faikin_comp_estimate cfg us u p now = (us, []) := by
  simp only [faikin_comp_estimate]
  rw [if_pos htrig]

theorem comp_disabled (cfg : Config) (us : Units) (u : String) (p : Payload) (now : ℚ)
    (htrig : ¬ (p.comp = PField.absent ∧ p.fanfreq = PField.absent))
    (hen : cfg.enable_comp_fallback = false) :
    faikin_comp_estimate cfg us u p now = (us, []) := by
  simp only [faikin_comp_estimate]
  rw [if_neg htrig, if_pos hen]

theorem comp_hold_case (cfg : Config) (us : Units) (u : String) (p : Payload) (now : ℚ)
    (htrig : ¬ (p.comp = PField.absent ∧ p.fanfreq = PField.absent))
    (hen : ¬ cfg.enable_comp_fallback = false)
    (hhold : (getRecD us u).hold_until ≠ 0) (hle : now ≤ (getRecD us u).hold_until) :
    faikin_comp_estimate cfg us u p now = discovery us u (dev_id_of p u) := by
  have hh : (getRecD (discovery us u (dev_id_of p u)).1 u).hold_until
      = (getRecD us u).hold_until := by rw [discovery_getRecD]
  simp only [faikin_comp_estimate]
  rw [if_neg htrig, if_neg hen, if_pos ⟨by rw [hh]; exact hhold, by rw [hh]; exact hle⟩]

theorem pow_mem_comp (cfg : Config) (us : Units) (u : String) (p : Payload) (now : ℚ)
    (v : String) (w' : ℚ)
    (h : PubMsg.power v w' ∈ (faikin_comp_estimate cfg us u p now).2) : 0 ≤ w' := by
  rcases comp_cases cfg us u p now with ⟨-, ho⟩ | ⟨-, ho⟩ | ⟨w, -, ho⟩ <;> rw [ho] at h
  · simp at h
  · exact (pow_mem_discovery us u _ v w' h).elim
  · rcases List.mem_append.mp h with h | h
    · exact (pow_mem_discovery us u _ v w' h).elim
    · rw [pow_mem_publish cfg _ u _ v w' h]
      exact clampPower_nonneg cfg _

theorem pow_mem_step (cfg : Config) (us : Units) (m : InMsg) (v : String) (w' : ℚ)
    (h : PubMsg.power v w' ∈ (step cfg us m).2) : 0 ≤ w' := by
  cases m with
  | energy u p now => exact pow_mem_energy cfg us u p now v w' h
  | aux u p now => exact pow_mem_comp cfg us u p now v w' h

theorem pow_mem_run (cfg : Config) (us : Units) (msgs : List InMsg) (v : String) (w' : ℚ)
    (h : PubMsg.power v w' ∈ (run cfg us msgs).2) : 0 ≤ w' := by
  induction msgs generalizing us with
  | nil => simp [run] at h
  | cons m ms ih =>
      have hr : (run cfg us (m :: ms)).2 = (step cfg us m).2 ++ (run cfg (step cfg us m).1 ms).2 :=
        rfl
      rw [hr] at h
      rcases List.mem_append.mp h with h | h
      · exact pow_mem_step cfg us m v w' h
      · exact ih (step cfg us m).1 h

/-! ### Announcement counting lemmas -/

theorem dn_le_one (us : Units) (x : String) : discoveredNat us x ≤ 1 := by
  unfold discoveredNat
  split_ifs <;> omega

theorem discovery_dn_all (us : Units) (u : String) (dv : String) (x : String) :
    countAnnounce x (discovery us u dv).2 + discoveredNat us x
      = discoveredNat (discovery us u dv).1 x := by
  by_cases hx : x = u
  · subst hx
    exact discovery_dn us x dv
  · rw [discovery_dn_ne us u x dv hx]
    have hf := discovery_frame us u x dv hx
    simp [discoveredNat, getRecD, hf]

theorem energy_dn (cfg : Config) (us : Units) (u : String) (p : Payload) (now : ℚ)
    (x : String) :
    countAnnounce x (faikin_energy_tick cfg us u p now).2 + discoveredNat us x
      = discoveredNat (faikin_energy_tick cfg us u p now).1 x := by
  unfold faikin_energy_tick
  rcases hwf : p.wh with _ | _ | wh <;> simp only [hwf]
  · simp [countAnnounce]
  · exact discovery_dn_all us u _ x
  · rw [countAnnounce_append, update_ann, update_discoveredNat]
    simpa using discovery_dn_all us u (dev_id_of p u) x

theorem comp_dn (cfg : Config) (us : Units) (u : String) (p : Payload) (now : ℚ)
    (x : String) :
    countAnnounce x (faikin_comp_estimate cfg us u p now).2 + discoveredNat us x
      = discoveredNat (faikin_comp_estimate cfg us u p now).1 x := by
  rcases comp_cases cfg us u p now with ⟨hs, ho⟩ | ⟨hs, ho⟩ | ⟨w, hs, ho⟩ <;> rw [hs, ho]
  · simp [countAnnounce]
  · exact discovery_dn_all us u _ x
  · rw [countAnnounce_append, publish_ann, publish_discoveredNat]
    simpa using discovery_dn_all us u (dev_id_of p u) x

theorem step_dn (cfg : Config) (us : Units) (m : InMsg) (x : String) :
    countAnnounce x (step cfg us m).2 + discoveredNat us x
      = discoveredNat (step cfg us m).1 x := by
  cases m with
  | energy u p now => exact energy_dn cfg us u p now x
  | aux u p now => exact comp_dn cfg us u p now x

theorem run_dn (cfg : Config) (us : Units) (msgs : List InMsg) (x : String) :
    countAnnounce x (run cfg us msgs).2 + discoveredNat us x
      = discoveredNat (run cfg us msgs).1 x := by
  induction msgs generalizing us with
  | nil => simp [run, countAnnounce]
  | cons m ms ih =>
      have hr : run cfg us (m :: ms) =
          ((run cfg (step cfg us m).1 ms).1,
           (step cfg us m).2 ++ (run cfg (step cfg us m).1 ms).2) := rfl
      rw [hr]
      simp only [countAnnounce_append]
      have h1 := step_dn cfg us m x
      have h2 := ih (step cfg us m).1
      omega

theorem run_dn_mono (cfg : Config) (us : Units) (msgs : List InMsg) (x : String)
    (h : discoveredNat us x = 1) : discoveredNat (run cfg us msgs).1 x = 1 := by
  have he := run_dn cfg us msgs x
  have hle := dn_le_one (run cfg us msgs).1 x
  omega

theorem energy_dn_force (cfg : Config) (us : Units) (u : String) (p : Payload) (now : ℚ)
    (hw : p.wh ≠ PField.absent) :
    discoveredNat (faikin_energy_tick cfg us u p now).1 u = 1 := by
  unfold faikin_energy_tick
  rcases hwf : p.wh with _ | _ | wh
  · exact absurd hwf hw
  · simp only [hwf]
    simp [discoveredNat, discovery_getRecD]
  · simp only [hwf]
    rw [update_discoveredNat]
    simp [discoveredNat, discovery_getRecD]

theorem run_dn_force (cfg : Config) (us : Units) (msgs : List InMsg) (x : String)
    (h : ∃ p now, InMsg.energy x p now ∈ msgs ∧ p.wh ≠ PField.absent) :
    discoveredNat (run cfg us msgs).1 x = 1 := by
  induction msgs generalizing us with
  | nil =>
      obtain ⟨p, now, hm, -⟩ := h
      simp at hm
  | cons m ms ih =>
      obtain ⟨p, now, hm, hwf⟩ := h
      rcases List.mem_cons.mp hm with hm | hm
      · have hstep : discoveredNat (step cfg us m).1 x = 1 := by
          rw [← hm]
          exact energy_dn_force cfg us x p now hwf
        exact run_dn_mono cfg (step cfg us m).1 ms x hstep
      · exact ih (step cfg us m).1 ⟨p, now, hm, hwf⟩

/-! ### Frame lemmas for the handlers -/

theorem energy_frame (cfg : Config) (us : Units) (u v : String) (p : Payload) (now : ℚ)
    (h : v ≠ u) :
    getRec (faikin_energy_tick cfg us u p now).1 v = getRec us v := by
  unfold faikin_energy_tick
  rcases hwf : p.wh with _ | _ | wh <;> simp only [hwf]
  · exact discovery_frame us u v _ h
  · rw [update_frame cfg _ u v wh now h, discovery_frame us u v _ h]

theorem comp_frame (cfg : Config) (us : Units) (u v : String) (p : Payload) (now : ℚ)
    (h : v ≠ u) :
    getRec (faikin_comp_estimate cfg us u p now).1 v = getRec us v := by
  rcases comp_cases cfg us u p now with ⟨hs, -⟩ | ⟨hs, -⟩ | ⟨w, hs, -⟩ <;> rw [hs]
  · exact discovery_frame us u v _ h
  · rw [publish_frame cfg _ u v _ h, discovery_frame us u v _ h]

/-! ### Hold-window helpers shared by the temporal claims -/

theorem discovery_hold_until (us : Units) (u : String) (dv : String) :
    (getRecD (discovery us u dv).1 u).hold_until = (getRecD us u).hold_until := by
  rw [discovery_getRecD]

theorem comp_suppressed (cfg : Config) (us : Units) (u : String) (p : Payload) (now : ℚ)
    (h1 : (getRecD us u).hold_until ≠ 0) (h2 : now ≤ (getRecD us u).hold_until) :
    ∀ m ∈ (faikin_comp_estimate cfg us u p now).2, m.isPower = false := by
  intro m hm
  by_cases htrig : p.comp = PField.absent ∧ p.fanfreq = PField.absent
  · rw [comp_trig_none cfg us u p now htrig] at hm
    simp at hm
  · by_cases hen : cfg.enable_comp_fallback = false
    · rw [comp_disabled cfg us u p now htrig hen] at hm
      simp at hm
    · rw [comp_hold_case cfg us u p now htrig hen h1 h2] at hm
      rcases discovery_out us u (dev_id_of p u) with ho | ho <;> rw [ho] at hm
      · simp at hm
      · simp at hm
        rw [hm]
        rfl

theorem run_same_energy_noop (cfg : Config) (u : String) (wh : ℤ) (R : URec)
    (hwh : R.last_wh = some wh) (hts : ∃ t, R.last_ts = some t) :
    ∀ (ticks : List ℚ) (us : Units), getRecD us u = R →
      (∀ τ ∈ ticks, τ ≤ R.hold_until) →
      (run_same_energy cfg us u wh ticks).2 = []
        ∧ getRecD (run_same_energy cfg us u wh ticks).1 u = R := by
  intro ticks
  induction ticks with
  | nil => exact fun us hR _ => ⟨rfl, hR⟩
  | cons τ rest ih =>
      intro us hR hall
      obtain ⟨t, ht⟩ := hts
      have hc : ¬ ((getRecD us u).hold_until ≠ 0 ∧ (getRecD us u).hold_until < τ) := by
        rw [hR]
        rintro ⟨-, hlt⟩
        exact absurd hlt (not_lt.mpr (hall τ (List.mem_cons_self _ _)))
      have hstep := update_noop cfg us u wh τ t (by rw [hR]; exact hwh)
        (by rw [hR]; exact ht) hc
      have hst1 : (update_from_energy cfg us u wh τ).1 = setRec us u (getRecD us u) := by
        rw [hstep]
      have hst2 : (update_from_energy cfg us u wh τ).2 = [] := by
        rw [hstep]
      have hstate : getRecD (update_from_energy cfg us u wh τ).1 u = R := by
        rw [hst1, getRecD_setRec_self, hR]
      obtain ⟨ih1, ih2⟩ := ih (update_from_energy cfg us u wh τ).1 hstate
        (fun τ' hτ' => hall τ' (List.mem_cons_of_mem _ hτ'))
      have hr : run_same_energy cfg us u wh (τ :: rest) =
          ((run_same_energy cfg (update_from_energy cfg us u wh τ).1 u wh rest).1,
           (update_from_energy cfg us u wh τ).2
             ++ (run_same_energy cfg (update_from_energy cfg us u wh τ).1 u wh rest).2) := rfl
      rw [hr]
      exact ⟨by simp [hst2, ih1], ih2⟩

/-! ### Concrete fixtures used by witnesses and counterexamples -/

/-- A unit with a stored prior reading (last=100 Wh at t=1000). -/
def usPrior : Units :=
  [("a", { last_wh := some 100, last_ts := some 1000, hold_until := 0,
           last_w := none, discovered := true })]

/-- A unit inside an active hold window (hold_until = 1025). -/
def usHold : Units :=
  [("a", { last_wh := some 200, last_ts := some 1010, hold_until := 1025,
           last_w := some 36000, discovered := true })]

/-- A payload whose Wh field is present but fails integer conversion. -/
def pWhBad : Payload :=
  { wh := PField.malformed, dev := none, comp := PField.absent, fanfreq := PField.absent }

/-- A payload with a parseable energy field of 50 Wh. -/
def pWh50 : Payload :=
  { wh := PField.val 50, dev := none, comp := PField.absent, fanfreq := PField.absent }

/-- An auxiliary-signal payload with comp = 3. -/
def pComp : Payload :=
  { wh := PField.absent, dev := none, comp := PField.val 3, fanfreq := PField.absent }

/-- The default configuration with the fallback estimator enabled. -/
def cfgComp : Config := { cfgDefault with enable_comp_fallback := true }

/-- The default configuration with a minimum power floor of 5 W. -/
def cfgFloor : Config := { cfgDefault with min_power_w := 5 }

/-! ### Claim theorems -/

/-- C1: on an update with a stored prior reading and an energy increase, with
the minimum-power floor disabled (its default), the published wattage equals
(energy_wh_now - last_energy_wh) * 3600 / dt with dt = max(0.5, now - last_observed_at). -/
theorem C1_tick_computation (cfg : Config) (us : Units) (u : String) (wh : ℤ) (ts : ℚ)
    (l : ℤ) (t : ℚ)
    (hwh : (getRecD us u).last_wh = some l) (hts : (getRecD us u).last_ts = some t)
    (hlt : l < wh) (hfloor : cfg.min_power_w = 0) :
    (update_from_energy cfg us u wh ts).2
      = [PubMsg.power u (((wh - l : ℤ) : ℚ) * 3600 / max (1 / 2) (ts - t))] := by
  have hdt : (0 : ℚ) < max (1 / 2) (ts - t) :=
    lt_of_lt_of_le (by norm_num) (le_max_left _ _)
  have hdwh : (0 : ℚ) < ((wh - l : ℤ) : ℚ) := by
    have hz : (0 : ℤ) < wh - l := sub_pos.mpr hlt
    exact_mod_cast hz
  have hwpos : 0 < ((wh - l : ℤ) : ℚ) * 3600 / max (1 / 2) (ts - t) :=
    div_pos (mul_pos hdwh (by norm_num)) hdt
  have h := update_increase cfg us u wh ts l t hwh hts hlt
  have h2 : (update_from_energy cfg us u wh ts).2
      = [PubMsg.power u (clampPower cfg (((wh - l : ℤ) : ℚ) * 3600 / max (1 / 2) (ts - t)))] := by
    rw [h]
  rw [h2, clampPower_pos_eq cfg _ hfloor hwpos]

/-- C1 witness: from prior (100 Wh, t=1000), the update (200 Wh, t=1010)
publishes 36000 W, and the update (101 Wh, t=1000.1) hits the half-second
floor and publishes 7200 W. -/
theorem C1_tick_computation_witness :
    (update_from_energy cfgDefault usPrior "a" 200 1010).2 = [PubMsg.power "a" 36000]
    ∧ (update_from_energy cfgDefault usPrior "a" 101 (10001 / 10)).2
        = [PubMsg.power "a" 7200] := by
  constructor
  · have h := C1_tick_computation cfgDefault usPrior "a" 200 1010 100 1000 rfl rfl
      (by norm_num) rfl
    rw [h]
    norm_num [max_def]
  · have h := C1_tick_computation cfgDefault usPrior "a" 101 (10001 / 10) 100 1000 rfl rfl
      (by norm_num) rfl
    rw [h]
    norm_num [max_def]

/-- C2 counterexample: an energy-tick message whose Wh field fails integer
parsing is not silently dropped on first contact: the discovery announcement
is still published and a record for the unit is created, because discovery
runs before energy parsing. -/
theorem C2_parse_cex :
    (faikin_energy_tick cfgDefault [] "a" pWhBad 0).2 ≠ []
    ∧ getRec (faikin_energy_tick cfgDefault [] "a" pWhBad 0).1 "a" ≠ none := by
  constructor <;> decide

/-- C2 amended: on a Wh parse failure no power message is published and the
energy-tracking fields of the unit's record (last_wh, last_ts, hold_until,
last_w) are unchanged; only the discovery step still runs first, so on first
contact an announcement is published and the discovered flag is set. -/
theorem C2_parse_failure (cfg : Config) (us : Units) (u : String) (p : Payload) (now : ℚ)
    (hm : p.wh = PField.malformed) :
    (∀ m ∈ (faikin_energy_tick cfg us u p now).2, m.isPower = false)
    ∧ (getRecD (faikin_energy_tick cfg us u p now).1 u).last_wh = (getRecD us u).last_wh
    ∧ (getRecD (faikin_energy_tick cfg us u p now).1 u).last_ts = (getRecD us u).last_ts
    ∧ (getRecD (faikin_energy_tick cfg us u p now).1 u).hold_until
        = (getRecD us u).hold_until
    ∧ (getRecD (faikin_energy_tick cfg us u p now).1 u).last_w = (getRecD us u).last_w := by
  have hdef : faikin_energy_tick cfg us u p now = discovery us u (dev_id_of p u) := by
    unfold faikin_energy_tick
    rw [hm]
  rw [hdef]
  refine ⟨?_, ?_, ?_, ?_, ?_⟩
  · intro m hm'
    rcases discovery_out us u (dev_id_of p u) with ho | ho <;> rw [ho] at hm'
    · simp at hm'
    · simp at hm'
      rw [hm']
      rfl
  all_goals rw [discovery_getRecD]

/-- C2 witness: applying the amended statement at a concrete malformed tick. -/
theorem C2_parse_failure_witness :
    (getRecD (faikin_energy_tick cfgDefault usPrior "a" pWhBad 77).1 "a").last_wh
      = (getRecD usPrior "a").last_wh :=
  (C2_parse_failure cfgDefault usPrior "a" pWhBad 77 rfl).2.1

/-- C3: on an energy increase the new hold_until is now plus the hold
duration, which is max(0, dt * (1 + f)) when a margin factor f is configured
and parseable, and max(0, dt + margin_seconds) otherwise. -/
theorem C3_hold_policy (cfg : Config) (us : Units) (u : String) (wh : ℤ) (ts : ℚ)
    (l : ℤ) (t : ℚ)
    (hwh : (getRecD us u).last_wh = some l) (hts : (getRecD us u).last_ts = some t)
    (hlt : l < wh) :
    (getRecD (update_from_energy cfg us u wh ts).1 u).hold_until
        = ts + compute_hold_seconds cfg (max (1 / 2) (ts - t))
    ∧ (∀ dt f, cfg.margin_factor = MarginFactor.value f →
        compute_hold_seconds cfg dt = max 0 (dt * (1 + f)))
    ∧ (∀ dt, (∀ f, cfg.margin_factor ≠ MarginFactor.value f) →
        compute_hold_seconds cfg dt = max 0 (dt + cfg.margin_seconds)) := by
  refine ⟨?_, ?_, ?_⟩
  · rw [update_increase cfg us u wh ts l t hwh hts hlt]
    simp [getRecD_setRec_self]
  · intro dt f hf
    simp [compute_hold_seconds, hf]
  · intro dt hf
    rcases hmf : cfg.margin_factor with _ | _ | f
    · simp [compute_hold_seconds, hmf]
    · simp [compute_hold_seconds, hmf]
    · exact absurd hmf (hf f)

/-- C3 witness: with dt = 10 and margin factor 0.5 the tick at t=1010 sets
hold_until = 1010 + 15 = 1025. -/
theorem C3_hold_policy_witness :
    (getRecD (update_from_energy cfgDefault usPrior "a" 200 1010).1 "a").hold_until
      = 1025 := by
  have h := (C3_hold_policy cfgDefault usPrior "a" 200 1010 100 1000 rfl rfl
    (by norm_num)).1
  rw [h]
  norm_num [compute_hold_seconds, cfgDefault, max_def]

/-- C4: on an update with an unchanged energy value, if the hold window is
set (nonzero) and now is strictly past it then exactly 0 W is published and
the hold is cleared with reading and timestamp untouched; otherwise nothing
is published and the record is completely unchanged, so repeated same-energy
updates within the hold window never publish. -/
theorem C4_same_energy (cfg : Config) (us : Units) (u : String) (wh : ℤ) (t : ℚ)
    (hwh : (getRecD us u).last_wh = some wh) (hts : (getRecD us u).last_ts = some t) :
    (∀ ts, (getRecD us u).hold_until ≠ 0 → (getRecD us u).hold_until < ts →
      (update_from_energy cfg us u wh ts).2 = [PubMsg.power u 0]
      ∧ getRecD (update_from_energy cfg us u wh ts).1 u
          = { getRecD us u with hold_until := 0, last_w := some 0 })
    ∧ (∀ ts, ¬ ((getRecD us u).hold_until ≠ 0 ∧ (getRecD us u).hold_until < ts) →
      (update_from_energy cfg us u wh ts).2 = []
      ∧ getRecD (update_from_energy cfg us u wh ts).1 u = getRecD us u)
    ∧ (∀ ticks : List ℚ, (getRecD us u).hold_until ≠ 0 →
        (∀ τ ∈ ticks, τ ≤ (getRecD us u).hold_until) →
        (run_same_energy cfg us u wh ticks).2 = []) := by
  refine ⟨?_, ?_, ?_⟩
  · intro ts hh hexp
    have h := update_expiry cfg us u wh ts t hwh hts hh hexp
    refine ⟨by rw [h], ?_⟩
    have hst : (update_from_energy cfg us u wh ts).1
        = setRec us u { getRecD us u with hold_until := 0, last_w := some 0 } := by
      rw [h]
    rw [hst, getRecD_setRec_self]
  · intro ts hc
    have h := update_noop cfg us u wh ts t hwh hts hc
    refine ⟨by rw [h], ?_⟩
    have hst : (update_from_energy cfg us u wh ts).1 = setRec us u (getRecD us u) := by
      rw [h]
    rw [hst, getRecD_setRec_self]
  · intro ticks hh hall
    exact (run_same_energy_noop cfg u wh (getRecD us u) hwh ⟨t, hts⟩ ticks us rfl hall).1

/-- C4 witness: with hold_until = 1025, a same-energy update at 1026 publishes
exactly 0 W, one at 1024 publishes nothing, and a whole same-energy sequence
inside the hold window publishes nothing. -/
theorem C4_same_energy_witness :
    (update_from_energy cfgDefault usHold "a" 200 1026).2 = [PubMsg.power "a" 0]
    ∧ (update_from_energy cfgDefault usHold "a" 200 1024).2 = []
    ∧ (run_same_energy cfgDefault usHold "a" 200 [1015, 1020, 1025]).2 = [] := by
  have hrec : getRecD usHold "a"
      = { last_wh := some 200, last_ts := some 1010, hold_until := 1025,
          last_w := some 36000, discovered := true } := rfl
  have h := C4_same_energy cfgDefault usHold "a" 200 1010 rfl rfl
  refine ⟨(h.1 1026 (by rw [hrec]; norm_num) (by rw [hrec]; norm_num)).1,
          (h.2.1 1024 ?_).1,
          h.2.2 [1015, 1020, 1025] (by rw [hrec]; norm_num) ?_⟩
  · rw [hrec]
    rintro ⟨-, hlt⟩
    norm_num at hlt
  · intro τ hτ
    rw [hrec]
    simp at hτ
    rcases hτ with hτ | hτ | hτ <;> rw [hτ] <;> norm_num

/-- C5: a first observation (no prior reading) and a counter regression are
reinitialized identically: baseline stored, hold cleared, exactly 0 W
published. -/
theorem C5_reset (cfg : Config) (us : Units) (u : String) (wh : ℤ) (ts : ℚ)
    (h : (getRecD us u).last_wh = none ∨ (getRecD us u).last_ts = none
        ∨ ∃ l, (getRecD us u).last_wh = some l ∧ wh < l) :
    (update_from_energy cfg us u wh ts).2 = [PubMsg.power u 0]
    ∧ getRecD (update_from_energy cfg us u wh ts).1 u
        = { getRecD us u with
              last_wh := some wh, last_ts := some ts, hold_until := 0, last_w := some 0 } := by
  have hres : update_from_energy cfg us u wh ts =
      (setRec us u
        { getRecD us u with
            last_wh := some wh, last_ts := some ts, hold_until := 0, last_w := some 0 },
       [PubMsg.power u 0]) := by
    rcases h with h | h | ⟨l, hl, hlt⟩
    · exact update_first_obs cfg us u wh ts (Or.inl h)
    · exact update_first_obs cfg us u wh ts (Or.inr h)
    · rcases hts : (getRecD us u).last_ts with _ | t
      · exact update_first_obs cfg us u wh ts (Or.inr hts)
      · exact update_regression cfg us u wh ts l t hl hts hlt
  refine ⟨by rw [hres], ?_⟩
  have hst : (update_from_energy cfg us u wh ts).1 = setRec us u
      { getRecD us u with
          last_wh := some wh, last_ts := some ts, hold_until := 0, last_w := some 0 } := by
    rw [hres]
  rw [hst, getRecD_setRec_self]

/-- C5 witness: a first observation publishes 0 and stores the baseline, and
a regression from 100 Wh to 50 Wh publishes 0 and resets the baseline. -/
theorem C5_reset_witness :
    ((update_from_energy cfgDefault [] "a" 50 7).2 = [PubMsg.power "a" 0]
      ∧ (getRecD (update_from_energy cfgDefault [] "a" 50 7).1 "a").last_wh = some 50)
    ∧ ((update_from_energy cfgDefault usPrior "a" 50 2000).2 = [PubMsg.power "a" 0]
      ∧ (getRecD (update_from_energy cfgDefault usPrior "a" 50 2000).1 "a").last_wh
          = some 50) := by
  constructor
  · have h := C5_reset cfgDefault [] "a" 50 7 (Or.inl rfl)
    exact ⟨h.1, by rw [h.2]⟩
  · have h := C5_reset cfgDefault usPrior "a" 50 2000
      (Or.inr (Or.inr ⟨100, rfl, by norm_num⟩))
    exact ⟨h.1, by rw [h.2]⟩

/-- C6: every wattage published over any message sequence is nonnegative, and
publish_power raises any strictly positive raw value to at least the
configured floor whenever that floor is positive. -/
theorem C6_nonneg_floor :
    (∀ (cfg : Config) (us0 : Units) (msgs : List InMsg) (v : String) (w : ℚ),
        PubMsg.power v w ∈ (run cfg us0 msgs).2 → 0 ≤ w)
    ∧ (∀ (cfg : Config) (us : Units) (u v : String) (raw w : ℚ),
        PubMsg.power v w ∈ (publish_power cfg us u raw).2 →
          0 ≤ w ∧ (0 < cfg.min_power_w → 0 < raw → cfg.min_power_w ≤ w)) := by
  constructor
  · exact fun cfg us0 msgs v w h => pow_mem_run cfg us0 msgs v w h
  · intro cfg us u v raw w h
    have hw := pow_mem_publish cfg us u raw v w h
    constructor
    · rw [hw]
      exact clampPower_nonneg cfg raw
    · intro hf hraw
      rw [hw]
      exact clampPower_floor cfg raw hf hraw

/-- C6 witness: the first-tick publish of 0 W is nonnegative, and with a 5 W
floor a raw value of 3 W is published as at least the floor. -/
theorem C6_nonneg_floor_witness :
    (0 : ℚ) ≤ 0 ∧ ((0 : ℚ) ≤ 5 ∧ cfgFloor.min_power_w ≤ 5) := by
  constructor
  · exact C6_nonneg_floor.1 cfgDefault [] [InMsg.energy "a" pWh50 3] "a" 0 (by decide)
  · have h := C6_nonneg_floor.2 cfgFloor [] "a" "a" 3 5 (by decide)
    exact ⟨h.1, h.2 (by decide) (by norm_num)⟩

/-- C7: while a unit's hold window is active (hold_until nonzero and now at
or before it), the fallback handler publishes no wattage message, whatever
the payload signals and whether or not the fallback is enabled. -/
theorem C7_fallback_suppressed (cfg : Config) (us : Units) (u : String) (p : Payload)
    (now : ℚ)
    (h1 : (getRecD us u).hold_until ≠ 0) (h2 : now ≤ (getRecD us u).hold_until) :
    ∀ m ∈ (faikin_comp_estimate cfg us u p now).2, m.isPower = false :=
  comp_suppressed cfg us u p now h1 h2

/-- C7 witness: with the fallback enabled, comp = 3 (which would otherwise
publish 150 W) and an active hold window, no 150 W message is published. -/
theorem C7_fallback_suppressed_witness :
    PubMsg.power "a" 150 ∉ (faikin_comp_estimate cfgComp usHold "a" pComp 1020).2 := by
  intro hm
  have h := C7_fallback_suppressed cfgComp usHold "a" pComp 1020 (by decide) (by decide)
    (PubMsg.power "a" 150) hm
  simp [PubMsg.isPower] at h

/-- C8 counterexample: a one-message sequence referencing unit a (an
auxiliary signal, with the fallback disabled as by default) produces zero
discovery announcements, not exactly one. -/
theorem C8_once_cex :
    countAnnounce "a" (run cfgDefault [] [InMsg.aux "a" pComp 5]).2 = 0 := by
  decide

/-- C8 amended: the announcement for a unit is published at most once over
any message sequence; never again once the discovered flag is set; and
exactly once whenever the sequence contains an energy-tick message for the
unit (an auxiliary message reaches discovery only when the fallback is
enabled). -/
theorem C8_announce_at_most_once :
    (∀ (cfg : Config) (us0 : Units) (msgs : List InMsg) (x : String),
        countAnnounce x (run cfg us0 msgs).2 ≤ 1)
    ∧ (∀ (cfg : Config) (us0 : Units) (msgs : List InMsg) (x : String),
        (getRecD us0 x).discovered = true →
        countAnnounce x (run cfg us0 msgs).2 = 0)
    ∧ (∀ (cfg : Config) (us0 : Units) (msgs : List InMsg) (x : String),
        (getRecD us0 x).discovered = false →
        (∃ p now, InMsg.energy x p now ∈ msgs ∧ p.wh ≠ PField.absent) →
        countAnnounce x (run cfg us0 msgs).2 = 1) := by
  refine ⟨?_, ?_, ?_⟩
  · intro cfg us0 msgs x
    have he := run_dn cfg us0 msgs x
    have hle := dn_le_one (run cfg us0 msgs).1 x
    omega
  · intro cfg us0 msgs x hd
    have he := run_dn cfg us0 msgs x
    have hle := dn_le_one (run cfg us0 msgs).1 x
    have h0 : discoveredNat us0 x = 1 := by simp [discoveredNat, hd]
    omega
  · intro cfg us0 msgs x hd hex
    have he := run_dn cfg us0 msgs x
    have hf := run_dn_force cfg us0 msgs x hex
    have h0 : discoveredNat us0 x = 0 := by simp [discoveredNat, hd]
    omega

/-- C8 witness: two energy ticks for a fresh unit yield exactly one
announcement. -/
theorem C8_announce_at_most_once_witness :
    countAnnounce "a"
      (run cfgDefault [] [InMsg.energy "a" pWh50 3, InMsg.energy "a" pWh50 9]).2 = 1 :=
  C8_announce_at_most_once.2.2 cfgDefault []
    [InMsg.energy "a" pWh50 3, InMsg.energy "a" pWh50 9] "a" rfl
    ⟨pWh50, 3, List.mem_cons_self _ _, by decide⟩

/-- C9: handling a message for one unit leaves every other unit's stored
record unchanged, for the energy update, the power publish, the discovery
step, and both handlers. -/
theorem C9_unit_isolation (cfg : Config) (us : Units) (u v : String) (hne : v ≠ u) :
    (∀ (wh : ℤ) (ts : ℚ), getRec (update_from_energy cfg us u wh ts).1 v = getRec us v)
    ∧ (∀ w : ℚ, getRec (publish_power cfg us u w).1 v = getRec us v)
    ∧ (∀ dv : String, getRec (discovery us u dv).1 v = getRec us v)
    ∧ (∀ (p : Payload) (now : ℚ),
        getRec (faikin_energy_tick cfg us u p now).1 v = getRec us v)
    ∧ (∀ (p : Payload) (now : ℚ),
        getRec (faikin_comp_estimate cfg us u p now).1 v = getRec us v) :=
  ⟨fun wh ts => update_frame cfg us u v wh ts hne,
   fun w => publish_frame cfg us u v w hne,
   fun dv => discovery_frame us u v dv hne,
   fun p now => energy_frame cfg us u v p now hne,
   fun p now => comp_frame cfg us u v p now hne⟩

/-- C9 witness: an energy update on unit a leaves unit b's record untouched. -/
theorem C9_unit_isolation_witness :
    getRec (update_from_energy cfgDefault usPrior "a" 300 1020).1 "b"
      = getRec usPrior "b" :=
  (C9_unit_isolation cfgDefault usPrior "a" "b" (by decide)).1 300 1020

/-- C10: at the boundary instant now = hold_until (nonzero), a same-energy
update publishes nothing and leaves the record unchanged (expiry needs now
strictly greater), and the fallback path publishes no wattage (suppression
holds up to and including the boundary). -/
theorem C10_boundary (cfg : Config) (us : Units) (u : String) (wh : ℤ) (t : ℚ)
    (p : Payload)
    (hwh : (getRecD us u).last_wh = some wh) (hts : (getRecD us u).last_ts = some t)
    (hh : (getRecD us u).hold_until ≠ 0) :
    ((update_from_energy cfg us u wh ((getRecD us u).hold_until)).2 = []
      ∧ getRecD (update_from_energy cfg us u wh ((getRecD us u).hold_until)).1 u
          = getRecD us u)
    ∧ (∀ m ∈ (faikin_comp_estimate cfg us u p ((getRecD us u).hold_until)).2,
        m.isPower = false) := by
  constructor
  · have hc : ¬ ((getRecD us u).hold_until ≠ 0
        ∧ (getRecD us u).hold_until < (getRecD us u).hold_until) := by
      rintro ⟨-, hlt⟩
      exact lt_irrefl _ hlt
    have h := update_noop cfg us u wh ((getRecD us u).hold_until) t hwh hts hc
    refine ⟨by rw [h], ?_⟩
    have hst : (update_from_energy cfg us u wh ((getRecD us u).hold_until)).1
        = setRec us u (getRecD us u) := by
      rw [h]
    rw [hst, getRecD_setRec_self]
  · exact comp_suppressed cfg us u p ((getRecD us u).hold_until) hh (le_refl _)

/-- C10 witness: at now = 1025 = hold_until, the same-energy update publishes
nothing. -/
theorem C10_boundary_witness :
    (update_from_energy cfgComp usHold "a" 200 ((getRecD usHold "a").hold_until)).2
      = ([] : List PubMsg) :=
  (C10_boundary cfgComp usHold "a" 200 1010 pComp rfl rfl (by decide)).1.1

end FaikinPower
